import Mathlib

/-!
Verification of the monthly credit-card spend forecasting pipeline
(notebook `1_prophet_forecast.ipynb`).

The pipeline, in source order:
* cell 4: convert `Date` to datetime, truncate to the containing calendar
  month (`YearMonth`), filter to one (city, expense-type) pair, group by
  `YearMonth` and sum `Amount` (the Aggregator);
* cell 6: reserve the final 6 months for testing via
  `train_cutoff = monthly_spend.ds.max() - DateOffset(months=6)` and the
  two filters `ds <= cutoff` / `ds > cutoff` (the Splitter);
* cell 8: `make_future_dataframe(periods=6, freq=MS)` extends the training
  dates by 6 consecutive month-starts (the external Forecaster's horizon);
* cell 10: `test_df.merge(forecast, on=ds, how=left)`, `dropna`, then
  `mean_absolute_error` (the Evaluator);
* cells 9/11: plot rendering and `savefig` side effects (the Reporter).

Dates are embedded as absolute calendar-month indices (`Int`): the index
`m` stands for the timestamp of the first day (month-start) of month `m`,
which is exactly what `to_period(M).to_timestamp()` produces and what
`DateOffset(months=6)` and the `MS` frequency shift by whole units of.
Amounts are embedded as `ℚ`.
-/

/-- A calendar date, as the index of its containing month together with the
day of month.  The month index identifies the calendar month; `day` is kept
only to record that truncation discards it. -/
structure Date where
  month : Int
  day : Nat
deriving DecidableEq, Repr

/-- One row of the input CSV: date, `City`, `Exp Type`, `Amount`. -/
structure Transaction where
  date : Date
  city : String
  expType : String
  amount : ℚ
deriving DecidableEq, Repr

/-- Cell 4: `df.Date.dt.to_period(M).dt.to_timestamp()` — truncation of a
date to the month-start of its containing calendar month. -/
def yearMonth (d : Date) : Int :=
  d.month

/-- One point of the monthly series: month-start date `ds` and summed
amount `y` (the Prophet column names used from cell 4 on). -/
structure SeriesPoint where
  ds : Int
  y : ℚ
deriving DecidableEq, Repr

/-- Cell 4: `mask = (df.City == city) & (df.ExpType == category)` —
case-sensitive exact string equality on both filter fields. -/
def matchesFilter (city category : String) (t : Transaction) : Bool :=
  t.city == city && t.expType == category

/-- Insert a month key into a strictly sorted list of month keys, keeping
it strictly sorted and duplicate-free.  Building the group keys this way
embeds pandas `groupby`, whose group keys are the distinct key values in
ascending order. -/
def insertMonth (m : Int) : List Int → List Int
  | [] => [m]
  | k :: ks =>
    if m < k then m :: k :: ks
    else if m = k then k :: ks
    else k :: insertMonth m ks

/-- The ascending duplicate-free list of month keys of a list of months:
the index of a pandas `groupby` over that column. -/
def sortedMonths (ms : List Int) : List Int :=
  ms.foldr insertMonth []

/-- Cell 4 (the Aggregator): select the rows matching the (city, category)
filter, truncate each date to its month, group by month and sum amounts.
`groupby(YearMonth)[Amount].sum()` yields one row per distinct month, in
ascending month order, whose value is the sum of `Amount` over the rows of
that month. -/
def monthlySpend (txs : List Transaction) (city category : String) : List SeriesPoint :=
  let rows := txs.filter (matchesFilter city category)
  let keys := sortedMonths (rows.map (fun t => yearMonth t.date))
  keys.map (fun m => ⟨m, ((rows.filter (fun t => yearMonth t.date == m)).map (·.amount)).sum⟩)

/-- `monthly_spend.ds.max()` (cell 6): the maximum of the `ds` column.
Pandas `.max()` of an empty column is NaN; the notebook only takes the max
of a nonempty series, so the empty case carries a junk value. -/
def seriesMax (s : List SeriesPoint) : Int :=
  match s with
  | [] => 0
  | p :: ps => ps.foldl (fun acc q => max acc q.ds) p.ds

/-- Minimum of the `ds` column (`test_df.ds.min()`), same convention. -/
def seriesMin (s : List SeriesPoint) : Int :=
  match s with
  | [] => 0
  | p :: ps => ps.foldl (fun acc q => min acc q.ds) p.ds

/-- Cell 6: `train_cutoff = monthly_spend.ds.max() - pd.DateOffset(months=h)`;
on month-start dates subtracting a months offset subtracts on the month
index. -/
def trainCutoff (s : List SeriesPoint) (holdoutMonths : Int) : Int :=
  seriesMax s - holdoutMonths

/-- Cell 6: `train_df = monthly_spend[monthly_spend.ds <= train_cutoff]`. -/
def trainSplit (s : List SeriesPoint) (c : Int) : List SeriesPoint :=
  s.filter (fun p => p.ds ≤ c)

/-- Cell 6: `test_df = monthly_spend[monthly_spend.ds > train_cutoff]`. -/
def testSplit (s : List SeriesPoint) (c : Int) : List SeriesPoint :=
  s.filter (fun p => c < p.ds)

/-- Maximum of a list of month indices (`train_df.ds.max()`), junk 0 on the
empty list. -/
def intListMax (l : List Int) : Int :=
  match l with
  | [] => 0
  | x :: xs => xs.foldl max x

/-- Modelled from the spec: the external forecaster's future-date
generation (`m.make_future_dataframe(periods, freq=MS)`, cell 8).  The
spec's Forecaster contract (§4.3) has output dates "for every date from
the start of the training range through horizon periods past its end"; at
month-start frequency the horizon dates are the `periods` consecutive
month-starts after the last training date, appended to the history dates. -/
def makeFutureDataframe (histDs : List Int) (periods : Nat) : List Int :=
  histDs ++ (List.range periods).map (fun (i : Nat) => intListMax histDs + (1 + (i : Int)))

/-- Cell 8: `future_only = forecast[forecast.ds > train_df.ds.max()]` — the
horizon part of the forecast dates. -/
def futureOnly (histDs : List Int) (periods : Nat) : List Int :=
  (makeFutureDataframe histDs periods).filter (fun d => intListMax histDs < d)

/-- One output row of the left merge of cell 10: holdout date, holdout
actual `y`, and the forecast `yhat` — `none` standing for the NaN a left
merge fills in when the date has no matching forecast row. -/
abbrev MergedRow := Int × ℚ × Option ℚ

/-- The rows a left merge produces for one holdout row: one row per
matching forecast row (in forecast order), or a single NaN-filled row when
no forecast date matches. -/
def leftMergeRow (forecast : List (Int × ℚ)) (p : SeriesPoint) : List MergedRow :=
  match forecast.filter (fun q => q.1 == p.ds) with
  | [] => [(p.ds, p.y, none)]
  | qs => qs.map (fun q => (p.ds, p.y, some q.2))

/-- Cell 10: `test_df.merge(forecast[[ds,yhat]], on=ds, how=left)` — left
rows in order, each paired with its matching forecast rows, NaN `yhat`
when unmatched.  `y` always comes from the holdout row, so it is never
missing. -/
def leftMerge (holdout : List SeriesPoint) (forecast : List (Int × ℚ)) : List MergedRow :=
  holdout.flatMap (leftMergeRow forecast)

/-- Cell 10: `eval_df.dropna(subset=[y,yhat])` — keep only the rows where
both values are present. -/
def dropna (rows : List MergedRow) : List (Int × ℚ × ℚ) :=
  rows.filterMap (fun r => r.2.2.map (fun v => (r.1, r.2.1, v)))

/-- The inner join of holdout actuals and forecast estimates on date, as
the spec describes the evaluation join: exactly the (date, actual,
predicted) combinations whose date occurs in both tables. -/
def innerJoin (holdout : List SeriesPoint) (forecast : List (Int × ℚ)) : List (Int × ℚ × ℚ) :=
  holdout.flatMap (fun p => (forecast.filter (fun q => q.1 == p.ds)).map (fun q => (p.ds, p.y, q.2)))

/-- Outcomes of the evaluation step.  `evaluationOverlap` is the distinct
no-overlap condition of the spec's error taxonomy (§7 (d)); `libraryMetricFailure`
is the external metric library's own failure on an empty input. -/
inductive EvalError where
  | evaluationOverlap
  | libraryMetricFailure
deriving DecidableEq, Repr

/-- Modelled from the spec: `sklearn.metrics.mean_absolute_error` as an
external capability — the mean of `|actual - predicted|` over the paired
inputs, undefined (a library failure, not a number) on an empty input. -/
def mean_absolute_error (ys yhats : List ℚ) : Except EvalError ℚ :=
  if ys.length = 0 then .error .libraryMetricFailure
  else .ok ((List.zipWith (fun a b => |a - b|) ys yhats).sum / (ys.length : ℚ))

/-- Cell 10 (the Evaluator): left-merge the holdout with the forecast,
drop the rows missing either value, and call the metric on the remaining
`y`/`yhat` columns.  The notebook performs no empty-join check of its own. -/
def evalStep (holdout : List SeriesPoint) (forecast : List (Int × ℚ)) : Except EvalError ℚ :=
  let e := dropna (leftMerge holdout forecast)
  mean_absolute_error (e.map (fun r => r.2.1)) (e.map (fun r => r.2.2))

/-- Outcomes of the fit step.  `filterEmpty` is the spec's distinct
FilterEmptyError (§7 (b)); `libraryFitFailure` is the external forecaster's
own failure when its minimum-data requirement is not met. -/
inductive FitError where
  | filterEmpty
  | libraryFitFailure
deriving DecidableEq, Repr

/-- Modelled from the spec: the external forecaster's `fit` (cell 7's
`m.fit(train_df)`), which enforces its own minimum-data requirement of at
least 2 rows (§4.2 treats this minimum as an external constraint, not
separately enforced by the pipeline). -/
def prophetFit (train : List SeriesPoint) : Except FitError Unit :=
  if train.length < 2 then .error .libraryFitFailure else .ok ()

/-- The notebook's downstream path from an aggregated series (cells 6–7):
split at the cutoff and fit the training frame directly.  No empty-series
check stands between the Aggregator and the fit call. -/
def downstream (s : List SeriesPoint) : Except FitError Unit :=
  prophetFit (trainSplit s (trainCutoff s 6))

/-- Outcomes of the notebook's tail (cells 9–10). -/
inductive TailError where
  | render
  | metric
deriving DecidableEq, Repr

/-- Cells 9–10 in source order: `fig1.savefig(...)` runs first, then the
evaluation cell.  The notebook has no exception handling, so a raising
`savefig` (modelled by `save = .error ()`) aborts execution before the
MAE line is reached. -/
def notebookTail (save : Except Unit Unit) (holdout : List SeriesPoint)
    (forecast : List (Int × ℚ)) : Except TailError ℚ :=
  match save with
  | .error _ => .error .render
  | .ok _ =>
    match evalStep holdout forecast with
    | .error _ => .error .metric
    | .ok v => .ok v

/-- The 14-point consecutive monthly series of the spec's end-to-end
scenario (§8): month-starts `m, m+1, …, m+13` with values `f 0, …, f 13`. -/
def consec14 (m : Int) (f : Nat → ℚ) : List SeriesPoint :=
  (List.range 14).map (fun (i : Nat) => (⟨m + i, f i⟩ : SeriesPoint))

/-! ### List helper lemmas -/

lemma length_filter_add_length_filter_not {α : Type} (l : List α) (p : α → Bool) :
    (l.filter p).length + (l.filter (fun a => !p a)).length = l.length := by
  simpa using (List.filter_append_perm p l).length_eq

lemma testSplit_eq_filter_not (s : List SeriesPoint) (c : Int) :
    testSplit s c = s.filter (fun p => !(decide (p.ds ≤ c))) := by
  unfold testSplit
  refine List.filter_congr ?_
  intro p _
  rw [Bool.eq_iff_iff]
  simp [not_le]

lemma foldl_max_ds_le {c : Int} :
    ∀ (l : List SeriesPoint) (a : Int), a ≤ c → (∀ q ∈ l, q.ds ≤ c) →
      l.foldl (fun acc q => max acc q.ds) a ≤ c
  | [], a, ha, _ => ha
  | q :: qs, a, ha, h =>
    foldl_max_ds_le qs (max a q.ds)
      (by have := h q (by simp); omega)
      (fun r hr => h r (by simp [hr]))

lemma lt_foldl_min_ds {c : Int} :
    ∀ (l : List SeriesPoint) (a : Int), c < a → (∀ q ∈ l, c < q.ds) →
      c < l.foldl (fun acc q => min acc q.ds) a
  | [], a, ha, _ => ha
  | q :: qs, a, ha, h =>
    lt_foldl_min_ds qs (min a q.ds)
      (by have := h q (by simp); omega)
      (fun r hr => h r (by simp [hr]))

lemma seriesMax_le_of_forall {c : Int} (s : List SeriesPoint) (hne : s ≠ [])
    (h : ∀ q ∈ s, q.ds ≤ c) : seriesMax s ≤ c := by
  match s with
  | [] => exact absurd rfl hne
  | p :: ps =>
    exact foldl_max_ds_le ps p.ds (h p (by simp)) (fun r hr => h r (by simp [hr]))

lemma lt_seriesMin_of_forall {c : Int} (s : List SeriesPoint) (hne : s ≠ [])
    (h : ∀ q ∈ s, c < q.ds) : c < seriesMin s := by
  match s with
  | [] => exact absurd rfl hne
  | p :: ps =>
    exact lt_foldl_min_ds ps p.ds (h p (by simp)) (fun r hr => h r (by simp [hr]))

lemma ds_le_foldl_max :
    ∀ (l : List SeriesPoint) (a : Int) (q : SeriesPoint), q ∈ l →
      q.ds ≤ l.foldl (fun acc r => max acc r.ds) a
  | [], _, _, hq => absurd hq (by simp)
  | p :: ps, a, q, hq => by
    rcases List.mem_cons.mp hq with h | h
    · subst h
      calc q.ds ≤ max a q.ds := le_max_right ..
        _ ≤ ps.foldl (fun acc r => max acc r.ds) (max a q.ds) := init_le_foldl_max ps _
    · exact ds_le_foldl_max ps (max a p.ds) q h
where
  init_le_foldl_max : ∀ (l : List SeriesPoint) (a : Int),
      a ≤ l.foldl (fun acc r => max acc r.ds) a
    | [], _ => le_refl _
    | p :: ps, a =>
      le_trans (le_max_left a p.ds) (init_le_foldl_max ps (max a p.ds))

lemma ds_le_seriesMax (s : List SeriesPoint) (q : SeriesPoint) (hq : q ∈ s) :
    q.ds ≤ seriesMax s := by
  match s with
  | [] => exact absurd hq (by simp)
  | p :: ps =>
    rcases List.mem_cons.mp hq with h | h
    · subst h
      exact ds_le_foldl_max.init_le_foldl_max ps q.ds
    · exact ds_le_foldl_max ps p.ds q h

/-! ### Claim C1: the Splitter partitions the series at the cutoff -/

/-- Concrete monthly series used by witnesses: three month-starts 0, 7, 13. -/
def exSeries : List SeriesPoint :=
  [⟨0, 1⟩, ⟨7, 2⟩, ⟨13, 3⟩]

/-- Claim C1: with cutoff = max date minus 6 months, every point with
date ≤ cutoff goes to training and every remaining point to holdout, so
the lengths add up to the whole series, the two parts are disjoint, every
training date is ≤ cutoff, every holdout date is > cutoff, and
max(training.ds) ≤ cutoff < min(holdout.ds) whenever the respective part
is non-empty. -/
theorem splitter_partitions_series (s : List SeriesPoint) :
    (trainSplit s (trainCutoff s 6)).length + (testSplit s (trainCutoff s 6)).length = s.length
    ∧ (∀ p, p ∈ trainSplit s (trainCutoff s 6) → p ∉ testSplit s (trainCutoff s 6))
    ∧ (∀ p ∈ trainSplit s (trainCutoff s 6), p.ds ≤ trainCutoff s 6)
    ∧ (∀ p ∈ testSplit s (trainCutoff s 6), trainCutoff s 6 < p.ds)
    ∧ (trainSplit s (trainCutoff s 6) ≠ [] →
        seriesMax (trainSplit s (trainCutoff s 6)) ≤ trainCutoff s 6)
    ∧ (testSplit s (trainCutoff s 6) ≠ [] →
        trainCutoff s 6 < seriesMin (testSplit s (trainCutoff s 6))) := by
  set c := trainCutoff s 6 with hc
  have htr : ∀ p ∈ trainSplit s c, p.ds ≤ c := by
    intro p hp
    have := List.of_mem_filter hp
    simpa using this
  have hte : ∀ p ∈ testSplit s c, c < p.ds := by
    intro p hp
    have := List.of_mem_filter hp
    simpa using this
  refine ⟨?_, ?_, htr, hte, ?_, ?_⟩
  · rw [testSplit_eq_filter_not]
    exact length_filter_add_length_filter_not s (fun p => decide (p.ds ≤ c))
  · intro p hp hp'
    have h1 := htr p hp
    have h2 := hte p hp'
    omega
  · intro hne
    exact seriesMax_le_of_forall _ hne htr
  · intro hne
    exact lt_seriesMin_of_forall _ hne hte

/-- Witness for C1 at the concrete series `exSeries` (cutoff 7): the
non-emptiness hypotheses of the max/min conjuncts are discharged by
evaluation. -/
theorem splitter_partitions_series_witness :
    seriesMax (trainSplit exSeries (trainCutoff exSeries 6)) ≤ trainCutoff exSeries 6
    ∧ trainCutoff exSeries 6 < seriesMin (testSplit exSeries (trainCutoff exSeries 6)) :=
  ⟨(splitter_partitions_series exSeries).2.2.2.2.1 (by decide),
   (splitter_partitions_series exSeries).2.2.2.2.2 (by decide)⟩

/-! ### Claim C10: the holdout has at most 6 points, and can have fewer -/

/-- Claim C10: for a monthly series with pairwise-distinct month-start
dates, the holdout (all points with date > max − 6 months) has at most 6
points; and there is a series with month gaps whose holdout has fewer
than 6 points, so exactly 6 is not guaranteed. -/
theorem holdout_length_at_most_six (s : List SeriesPoint)
    (hnd : (s.map (fun p => p.ds)).Nodup) :
    (testSplit s (trainCutoff s 6)).length ≤ 6
    ∧ ∃ s' : List SeriesPoint, (s'.map (fun p => p.ds)).Nodup ∧ s' ≠ [] ∧
        (testSplit s' (trainCutoff s' 6)).length < 6 := by
  constructor
  · set c := trainCutoff s 6 with hc
    set t := testSplit s c with ht
    have hsub : List.Sublist (t.map (fun p => p.ds)) (s.map (fun p => p.ds)) :=
      (List.filter_sublist s).map _
    have hndt : (t.map (fun p => p.ds)).Nodup := hnd.sublist hsub
    have hmem : ∀ d ∈ (t.map (fun p => p.ds)), d ∈ Finset.Ioc c (seriesMax s) := by
      intro d hd
      rcases List.mem_map.mp hd with ⟨p, hp, hpd⟩
      have hps : p ∈ s := List.mem_of_mem_filter hp
      have h1 : c < p.ds := by simpa using List.of_mem_filter hp
      have h2 : p.ds ≤ seriesMax s := ds_le_seriesMax s p hps
      rw [Finset.mem_Ioc]
      omega
    have hsubset : (t.map (fun p => p.ds)).toFinset ⊆ Finset.Ioc c (seriesMax s) := by
      intro d hd
      exact hmem d (List.mem_toFinset.mp hd)
    have hcard : (t.map (fun p => p.ds)).toFinset.card ≤ (Finset.Ioc c (seriesMax s)).card :=
      Finset.card_le_card hsubset
    rw [List.toFinset_card_of_nodup hndt, List.length_map] at hcard
    rw [Int.card_Ioc] at hcard
    have : (seriesMax s - c).toNat = 6 := by
      rw [hc]
      unfold trainCutoff
      omega
    omega
  · exact ⟨[⟨0, 1⟩, ⟨13, 2⟩], by decide, by decide, by decide⟩

/-- Witness for C10: the distinct-dates hypothesis is discharged at
`exSeries` by evaluation, and its holdout indeed has at most 6 points. -/
theorem holdout_length_at_most_six_witness :
    (testSplit exSeries (trainCutoff exSeries 6)).length ≤ 6 :=
  (holdout_length_at_most_six exSeries (by decide)).1

/-! ### Aggregator lemmas: sorted group keys and sum preservation -/

lemma mem_insertMonth (a m : Int) :
    ∀ (l : List Int), a ∈ insertMonth m l ↔ a = m ∨ a ∈ l
  | [] => by simp [insertMonth]
  | k :: ks => by
    unfold insertMonth
    split
    · simp [List.mem_cons]
    · split
      · rename_i h1 h2
        subst h2
        simp [List.mem_cons]
      · rw [List.mem_cons, mem_insertMonth a m ks, List.mem_cons]
        tauto

lemma pairwise_insertMonth (m : Int) :
    ∀ (l : List Int), l.Pairwise (· < ·) → (insertMonth m l).Pairwise (· < ·)
  | [], _ => by simp [insertMonth]
  | k :: ks, h => by
    rw [List.pairwise_cons] at h
    obtain ⟨hk, hks⟩ := h
    unfold insertMonth
    split
    · rename_i hmk
      refine List.pairwise_cons.mpr ⟨?_, List.pairwise_cons.mpr ⟨hk, hks⟩⟩
      intro a ha
      rcases List.mem_cons.mp ha with rfl | ha
      · exact hmk
      · exact lt_trans hmk (hk a ha)
    · split
      · exact List.pairwise_cons.mpr ⟨hk, hks⟩
      · rename_i h1 h2
        have hkm : k < m := by omega
        refine List.pairwise_cons.mpr ⟨?_, pairwise_insertMonth m ks hks⟩
        intro a ha
        rcases (mem_insertMonth a m ks).mp ha with rfl | ha
        · exact hkm
        · exact hk a ha

lemma sortedMonths_pairwise : ∀ (ms : List Int), (sortedMonths ms).Pairwise (· < ·)
  | [] => by simp [sortedMonths]
  | m :: ms => pairwise_insertMonth m (sortedMonths ms) (sortedMonths_pairwise ms)

lemma sortedMonths_nodup (ms : List Int) : (sortedMonths ms).Nodup :=
  (sortedMonths_pairwise ms).imp (fun h => ne_of_lt h)

lemma mem_sortedMonths (a : Int) : ∀ (ms : List Int), a ∈ sortedMonths ms ↔ a ∈ ms
  | [] => by simp [sortedMonths]
  | m :: ms => by
    show a ∈ insertMonth m (sortedMonths ms) ↔ _
    rw [mem_insertMonth, mem_sortedMonths a ms, List.mem_cons]

lemma sum_filter_add_sum_filter_not {α : Type} (l : List α) (p : α → Bool) (f : α → ℚ) :
    ((l.filter p).map f).sum + ((l.filter (fun a => !p a)).map f).sum = (l.map f).sum := by
  rw [← List.sum_append, ← List.map_append]
  exact ((List.filter_append_perm p l).map f).sum_eq

lemma sum_groupby {α : Type} (k : α → Int) (f : α → ℚ) :
    ∀ (keys : List Int) (l : List α), keys.Nodup → (∀ x ∈ l, k x ∈ keys) →
      (keys.map (fun m => ((l.filter (fun x => k x == m)).map f).sum)).sum = (l.map f).sum
  | [], l, _, hall => by
    have hl : l = [] := by
      cases l with
      | nil => rfl
      | cons a as => exact absurd (hall a (by simp)) (by simp)
    subst hl
    simp
  | m :: ks, l, hnd, hall => by
    rw [List.nodup_cons] at hnd
    obtain ⟨hm, hks⟩ := hnd
    rw [List.map_cons, List.sum_cons]
    have hstep : ∀ m' ∈ ks,
        (l.filter (fun x => !(k x == m))).filter (fun x => k x == m')
          = l.filter (fun x => k x == m') := by
      intro m' hm'
      have hne : m' ≠ m := fun h => hm (h ▸ hm')
      rw [List.filter_filter]
      refine List.filter_congr ?_
      intro x _
      by_cases h : k x = m'
      · simp [h, hne]
      · simp [h]
    have hmap : ks.map (fun m' => ((l.filter (fun x => k x == m')).map f).sum)
        = ks.map (fun m' =>
            (((l.filter (fun x => !(k x == m))).filter (fun x => k x == m')).map f).sum) :=
      List.map_congr_left (fun m' hm' => by rw [hstep m' hm'])
    rw [hmap,
      sum_groupby k f ks (l.filter (fun x => !(k x == m))) hks (by
        intro x hx
        have hxl : x ∈ l := List.mem_of_mem_filter hx
        have hxm : (k x == m) ≠ true := by
          have := List.of_mem_filter hx
          simp at this
          simpa using this
        rcases List.mem_cons.mp (hall x hxl) with h | h
        · exact absurd (by simp [h]) hxm
        · exact h)]
    exact sum_filter_add_sum_filter_not l (fun x => k x == m) f

/-! ### Claims C2, C3: the Aggregator preserves totals and sorts dates -/

lemma monthlySpend_map_ds (txs : List Transaction) (city category : String) :
    (monthlySpend txs city category).map (fun p => p.ds)
      = sortedMonths ((txs.filter (matchesFilter city category)).map (fun t => yearMonth t.date)) := by
  unfold monthlySpend
  rw [List.map_map]
  simp [Function.comp_def]

/-- Claim C2: for every transaction set and (city, category) filter, the
sum of the monthly series' summed amounts equals the sum of the amounts of
all transactions matching the filter (case-sensitive exact equality on
both fields): no matching transaction is dropped or double-counted. -/
theorem aggregator_preserves_total_spend (txs : List Transaction) (city category : String) :
    ((monthlySpend txs city category).map (fun p => p.y)).sum
      = ((txs.filter (matchesFilter city category)).map (fun t => t.amount)).sum := by
  unfold monthlySpend
  rw [List.map_map]
  exact sum_groupby (fun t => yearMonth t.date) (fun t => t.amount)
    (sortedMonths ((txs.filter (matchesFilter city category)).map (fun t => yearMonth t.date)))
    (txs.filter (matchesFilter city category))
    (sortedMonths_nodup _)
    (fun t ht => (mem_sortedMonths _ _).mpr (List.mem_map.mpr ⟨t, ht, rfl⟩))

/-- Concrete transactions used by witnesses: three Bengaluru Food rows in
months 0 and 2 (one month gap), and one non-matching row. -/
def exTxs : List Transaction :=
  [⟨⟨0, 5⟩, "Bengaluru, India", "Food", 10⟩,
   ⟨⟨0, 20⟩, "Bengaluru, India", "Food", 5⟩,
   ⟨⟨2, 3⟩, "Bengaluru, India", "Food", 7⟩,
   ⟨⟨1, 1⟩, "Delhi", "Food", 3⟩]

/-- Claim C3: the Aggregator's output dates are strictly increasing (hence
sorted ascending with no duplicates), and every output date is the
month-start truncation of some contributing (filter-matching) transaction. -/
theorem aggregator_dates_strictly_increasing (txs : List Transaction) (city category : String) :
    List.Pairwise (· < ·) ((monthlySpend txs city category).map (fun p => p.ds))
    ∧ ((monthlySpend txs city category).map (fun p => p.ds)).Nodup
    ∧ (∀ d ∈ (monthlySpend txs city category).map (fun p => p.ds),
        ∃ t ∈ txs, matchesFilter city category t = true ∧ yearMonth t.date = d) := by
  rw [monthlySpend_map_ds]
  refine ⟨sortedMonths_pairwise _, sortedMonths_nodup _, ?_⟩
  intro d hd
  rw [mem_sortedMonths] at hd
  rcases List.mem_map.mp hd with ⟨t, ht, rfl⟩
  exact ⟨t, List.mem_of_mem_filter ht, List.of_mem_filter ht, rfl⟩

/-- Witness for C3 at the concrete transactions `exTxs`: month 0 is an
output date, and the theorem produces a contributing transaction for it. -/
theorem aggregator_dates_strictly_increasing_witness :
    ∃ t ∈ exTxs, matchesFilter "Bengaluru, India" "Food" t = true ∧ yearMonth t.date = 0 :=
  (aggregator_dates_strictly_increasing exTxs "Bengaluru, India" "Food").2.2 0 (by decide)

/-! ### Claim C8: the metric is the mean of absolute deviations -/

lemma mem_zipWith_absdiff_nonneg :
    ∀ (ys yhats : List ℚ), ∀ x ∈ List.zipWith (fun a b => |a - b|) ys yhats, 0 ≤ x
  | [], _, x, hx => by simp at hx
  | _ :: _, [], x, hx => by simp at hx
  | a :: as, b :: bs, x, hx => by
    rw [List.zipWith_cons_cons, List.mem_cons] at hx
    rcases hx with rfl | hx
    · exact abs_nonneg _
    · exact mem_zipWith_absdiff_nonneg as bs x hx

lemma sum_eq_zero_iff_of_nonneg :
    ∀ (l : List ℚ), (∀ x ∈ l, 0 ≤ x) → (l.sum = 0 ↔ ∀ x ∈ l, x = 0)
  | [], _ => by simp
  | a :: as, h => by
    rw [List.sum_cons]
    have ha : 0 ≤ a := h a (by simp)
    have has : ∀ x ∈ as, 0 ≤ x := fun x hx => h x (by simp [hx])
    have hs : 0 ≤ as.sum := List.sum_nonneg has
    have ih := sum_eq_zero_iff_of_nonneg as has
    constructor
    · intro h0
      have ha0 : a = 0 := by linarith
      have hs0 : as.sum = 0 := by linarith
      intro x hx
      rcases List.mem_cons.mp hx with rfl | hx
      · exact ha0
      · exact ih.mp hs0 x hx
    · intro h0
      have ha0 : a = 0 := h0 a (by simp)
      have hs0 : as.sum = 0 := ih.mpr (fun x hx => h0 x (by simp [hx]))
      rw [ha0, hs0, add_zero]

lemma zipWith_absdiff_all_zero_iff :
    ∀ (ys yhats : List ℚ), ys.length = yhats.length →
      ((∀ x ∈ List.zipWith (fun a b => |a - b|) ys yhats, x = 0) ↔ ys = yhats)
  | [], [], _ => by simp
  | [], _ :: _, h => by simp at h
  | _ :: _, [], h => by simp at h
  | a :: as, b :: bs, h => by
    rw [List.zipWith_cons_cons]
    have hlen : as.length = bs.length := by simpa using h
    have ih := zipWith_absdiff_all_zero_iff as bs hlen
    constructor
    · intro hz
      have h1 : |a - b| = 0 := hz _ (by simp)
      have h2 : as = bs := ih.mp (fun x hx => hz x (by simp [hx]))
      have h3 : a = b := by rwa [abs_eq_zero, sub_eq_zero] at h1
      rw [h3, h2]
    · intro he
      injection he with h1 h2
      intro x hx
      rcases List.mem_cons.mp hx with rfl | hx
      · rw [h1]; simp
      · exact ih.mpr h2 x hx

/-- Claim C8: on a non-empty evaluation set the metric succeeds and equals
the mean of `|actual − predicted|` over the joined rows; that value is
≥ 0 and equals 0 exactly when every joined actual/predicted pair is
equal. -/
theorem mae_is_mean_absolute_deviation (ys yhats : List ℚ) (hne : ys ≠ [])
    (hlen : ys.length = yhats.length) :
    mean_absolute_error ys yhats
        = .ok ((List.zipWith (fun a b => |a - b|) ys yhats).sum / (ys.length : ℚ))
    ∧ ∀ v, mean_absolute_error ys yhats = .ok v → 0 ≤ v ∧ (v = 0 ↔ ys = yhats) := by
  have hlen0 : ys.length ≠ 0 := by simpa using hne
  have heq : mean_absolute_error ys yhats
      = .ok ((List.zipWith (fun a b => |a - b|) ys yhats).sum / (ys.length : ℚ)) := by
    unfold mean_absolute_error
    rw [if_neg hlen0]
  refine ⟨heq, ?_⟩
  intro v hv
  rw [heq] at hv
  injection hv with hv
  subst hv
  have hS : 0 ≤ (List.zipWith (fun a b => |a - b|) ys yhats).sum :=
    List.sum_nonneg (mem_zipWith_absdiff_nonneg ys yhats)
  have hn : (0 : ℚ) < (ys.length : ℚ) := by
    have := Nat.pos_of_ne_zero hlen0
    exact_mod_cast this
  constructor
  · exact div_nonneg hS (le_of_lt hn)
  · rw [div_eq_zero_iff]
    constructor
    · rintro (h | h)
      · exact (zipWith_absdiff_all_zero_iff ys yhats hlen).mp
          ((sum_eq_zero_iff_of_nonneg _ (mem_zipWith_absdiff_nonneg ys yhats)).mp h)
      · exact absurd h (ne_of_gt hn)
    · intro h
      exact Or.inl ((sum_eq_zero_iff_of_nonneg _ (mem_zipWith_absdiff_nonneg ys yhats)).mpr
        ((zipWith_absdiff_all_zero_iff ys yhats hlen).mpr h))

/-- Witness for C8 at the concrete columns `[1, 3]` and `[1, 2]`: the
non-emptiness and equal-length hypotheses are discharged by evaluation. -/
theorem mae_is_mean_absolute_deviation_witness :
    mean_absolute_error [(1 : ℚ), 3] [1, 2]
      = .ok ((List.zipWith (fun a b => |a - b|) [(1 : ℚ), 3] [1, 2]).sum
          / (([(1 : ℚ), 3].length : ℚ))) :=
  (mae_is_mean_absolute_deviation [(1 : ℚ), 3] [1, 2] (by decide) (by decide)).1

/-! ### Claim C4: the evaluation join is inner -/

lemma dropna_map_some (a : Int) (b : ℚ) :
    ∀ (l : List (Int × ℚ)),
      dropna (l.map (fun q => (a, b, some q.2))) = l.map (fun q => (a, b, q.2))
  | [] => rfl
  | x :: xs => by
    rw [List.map_cons, List.map_cons]
    show (a, b, x.2) :: dropna (xs.map (fun q => (a, b, some q.2))) = _
    rw [dropna_map_some a b xs]

lemma dropna_leftMergeRow (f : List (Int × ℚ)) (p : SeriesPoint) :
    dropna (leftMergeRow f p)
      = (f.filter (fun q => q.1 == p.ds)).map (fun q => (p.ds, p.y, q.2)) := by
  unfold leftMergeRow
  cases h : f.filter (fun q => q.1 == p.ds) with
  | nil => simp [dropna]
  | cons x xs =>
    exact dropna_map_some p.ds p.y (x :: xs)

lemma dropna_append (l1 l2 : List MergedRow) :
    dropna (l1 ++ l2) = dropna l1 ++ dropna l2 := by
  unfold dropna
  exact List.filterMap_append ..

lemma dropna_leftMerge_eq_innerJoin :
    ∀ (h : List SeriesPoint) (f : List (Int × ℚ)),
      dropna (leftMerge h f) = innerJoin h f
  | [], f => rfl
  | p :: ps, f => by
    show dropna (leftMergeRow f p ++ leftMerge ps f) = _
    rw [dropna_append, dropna_leftMergeRow, dropna_leftMerge_eq_innerJoin ps f]
    rfl

lemma mem_innerJoin (h : List SeriesPoint) (f : List (Int × ℚ)) (r : Int × ℚ × ℚ) :
    r ∈ innerJoin h f ↔ ∃ p ∈ h, ∃ q ∈ f, q.1 = p.ds ∧ r = (p.ds, p.y, q.2) := by
  unfold innerJoin
  rw [List.mem_flatMap]
  constructor
  · rintro ⟨p, hp, hr⟩
    rcases List.mem_map.mp hr with ⟨q, hq, rfl⟩
    exact ⟨p, hp, q, List.mem_of_mem_filter hq, by simpa using List.of_mem_filter hq, rfl⟩
  · rintro ⟨p, hp, q, hq, hqd, rfl⟩
    exact ⟨p, hp, List.mem_map.mpr ⟨q, List.mem_filter.mpr ⟨hq, by simp [hqd]⟩, rfl⟩⟩

lemma filter_key_length_le_one (f : List (Int × ℚ)) (d : Int)
    (hf : (f.map (fun q => q.1)).Nodup) :
    (f.filter (fun q => q.1 == d)).length ≤ 1 := by
  induction f with
  | nil => simp
  | cons x xs ih =>
    rw [List.map_cons, List.nodup_cons] at hf
    obtain ⟨hx, hxs⟩ := hf
    rw [List.filter_cons]
    by_cases h : x.1 = d
    · rw [if_pos (by simp [h])]
      have hnil : xs.filter (fun q => q.1 == d) = [] := by
        rw [List.filter_eq_nil_iff]
        intro q hq
        simp only [beq_iff_eq]
        intro hqd
        exact hx (List.mem_map.mpr ⟨q, hq, by rw [hqd, h]⟩)
      simp [hnil]
    · rw [if_neg (by simp [h])]
      exact ih hxs

lemma innerJoin_length_le_left :
    ∀ (h : List SeriesPoint) (f : List (Int × ℚ)),
      (f.map (fun q => q.1)).Nodup → (innerJoin h f).length ≤ h.length
  | [], _, _ => by simp [innerJoin]
  | p :: ps, f, hf => by
    show ((f.filter (fun q => q.1 == p.ds)).map (fun q => (p.ds, p.y, q.2))
        ++ innerJoin ps f).length ≤ ps.length + 1
    rw [List.length_append, List.length_map]
    have h1 := filter_key_length_le_one f p.ds hf
    have h2 := innerJoin_length_le_left ps f hf
    omega

lemma flatMap_congr {α β : Type} (l : List α) (f g : α → List β)
    (h : ∀ x ∈ l, f x = g x) : l.flatMap f = l.flatMap g := by
  induction l with
  | nil => rfl
  | cons a as ih =>
    rw [List.flatMap_cons, List.flatMap_cons, h a (by simp),
      ih (fun x hx => h x (by simp [hx]))]

lemma innerJoin_length_le_right :
    ∀ (h : List SeriesPoint) (f : List (Int × ℚ)),
      (h.map (fun p => p.ds)).Nodup → (innerJoin h f).length ≤ f.length
  | [], _, _ => by simp [innerJoin]
  | p :: ps, f, hh => by
    rw [List.map_cons, List.nodup_cons] at hh
    obtain ⟨hp, hps⟩ := hh
    have hblocks : ∀ q ∈ ps,
        (f.filter (fun x => !(x.1 == p.ds))).filter (fun x => x.1 == q.ds)
          = f.filter (fun x => x.1 == q.ds) := by
      intro q hq
      have hne : q.ds ≠ p.ds := by
        intro h
        exact hp (h ▸ List.mem_map.mpr ⟨q, hq, rfl⟩)
      rw [List.filter_filter]
      refine List.filter_congr ?_
      intro x _
      by_cases h : x.1 = q.ds
      · simp [h, hne]
      · simp [h]
    have hrw : innerJoin ps f = innerJoin ps (f.filter (fun x => !(x.1 == p.ds))) := by
      unfold innerJoin
      refine flatMap_congr ps _ _ ?_
      intro q hq
      rw [hblocks q hq]
    show ((f.filter (fun q => q.1 == p.ds)).map (fun q => (p.ds, p.y, q.2))
        ++ innerJoin ps f).length ≤ f.length
    rw [List.length_append, List.length_map, hrw]
    have h1 := innerJoin_length_le_right ps (f.filter (fun x => !(x.1 == p.ds))) hps
    have h2 := length_filter_add_length_filter_not f (fun q => q.1 == p.ds)
    omega

/-- Claim C4: the Evaluator's join is inner: left-merging holdout actuals
with forecast estimates on date and dropping rows missing either value
yields exactly the rows whose date is present in both tables (the inner
join) and nothing else; with the pipeline's unique-date invariant on both
tables the number of evaluation records is at most
min(len(holdout), len(forecast)). -/
theorem evaluation_join_is_inner (holdout : List SeriesPoint) (forecast : List (Int × ℚ))
    (hh : (holdout.map (fun p => p.ds)).Nodup)
    (hf : (forecast.map (fun q => q.1)).Nodup) :
    dropna (leftMerge holdout forecast) = innerJoin holdout forecast
    ∧ (∀ r, r ∈ dropna (leftMerge holdout forecast) ↔
        ∃ p ∈ holdout, ∃ q ∈ forecast, q.1 = p.ds ∧ r = (p.ds, p.y, q.2))
    ∧ (dropna (leftMerge holdout forecast)).length ≤ min holdout.length forecast.length := by
  have heq := dropna_leftMerge_eq_innerJoin holdout forecast
  refine ⟨heq, ?_, ?_⟩
  · intro r
    rw [heq]
    exact mem_innerJoin holdout forecast r
  · rw [heq]
    exact le_min (innerJoin_length_le_left holdout forecast hf)
      (innerJoin_length_le_right holdout forecast hh)

/-- Witness for C4 at a concrete one-row holdout and one-row forecast with
a matching date: the unique-date hypotheses are discharged by evaluation. -/
theorem evaluation_join_is_inner_witness :
    dropna (leftMerge [⟨5, 10⟩] [(5, 9)]) = innerJoin [⟨5, 10⟩] [(5, 9)]
    ∧ (dropna (leftMerge [⟨5, 10⟩] [(5, 9)])).length ≤ min 1 1 :=
  ⟨(evaluation_join_is_inner [⟨5, 10⟩] [(5, 9)] (by decide) (by decide)).1,
   (evaluation_join_is_inner [⟨5, 10⟩] [(5, 9)] (by decide) (by decide)).2.2⟩

/-! ### Claim C5: the 14-month end-to-end scenario -/

lemma le_foldl_max_int :
    ∀ (l : List Int) (a : Int), a ≤ l.foldl max a
  | [], _ => le_refl _
  | x :: xs, a => le_trans (le_max_left a x) (le_foldl_max_int xs (max a x))

lemma mem_le_foldl_max_int :
    ∀ (l : List Int) (a d : Int), d ∈ l → d ≤ l.foldl max a
  | [], _, _, hd => absurd hd (by simp)
  | x :: xs, a, d, hd => by
    rcases List.mem_cons.mp hd with rfl | hd
    · exact le_trans (le_max_right a d) (le_foldl_max_int xs (max a d))
    · exact mem_le_foldl_max_int xs (max a x) d hd

lemma le_intListMax_of_mem (l : List Int) (d : Int) (hd : d ∈ l) : d ≤ intListMax l := by
  match l with
  | [] => exact absurd hd (by simp)
  | x :: xs =>
    rcases List.mem_cons.mp hd with rfl | hd
    · exact le_foldl_max_int xs d
    · exact mem_le_foldl_max_int xs x d hd

lemma futureOnly_eq_horizon (histDs : List Int) (periods : Nat) :
    futureOnly histDs periods
      = (List.range periods).map (fun (i : Nat) => intListMax histDs + (1 + (i : Int))) := by
  unfold futureOnly makeFutureDataframe
  rw [List.filter_append]
  have h1 : histDs.filter (fun d => decide (intListMax histDs < d)) = [] := by
    rw [List.filter_eq_nil_iff]
    intro d hd
    simpa using not_lt.mpr (le_intListMax_of_mem histDs d hd)
  have h2 : ((List.range periods).map (fun (i : Nat) => intListMax histDs + (1 + (i : Int)))).filter
        (fun d => decide (intListMax histDs < d))
      = (List.range periods).map (fun (i : Nat) => intListMax histDs + (1 + (i : Int))) := by
    rw [List.filter_eq_self]
    intro d hd
    rcases List.mem_map.mp hd with ⟨i, _, rfl⟩
    simp only [decide_eq_true_eq]
    have hi : (0 : Int) ≤ (i : Int) := Int.natCast_nonneg i
    omega
  rw [h1, h2, List.nil_append]

lemma trainSplit_consec14 (m : Int) (f : Nat → ℚ) :
    trainSplit (consec14 m f) (m + 7)
      = ((List.range 14).filter (fun i => decide (i ≤ 7))).map
          (fun (i : Nat) => (⟨m + i, f i⟩ : SeriesPoint)) := by
  unfold trainSplit consec14
  rw [List.filter_map]
  congr 1
  refine List.filter_congr ?_
  intro i _
  simp only [Function.comp]
  rw [decide_eq_decide]
  omega

lemma testSplit_consec14 (m : Int) (f : Nat → ℚ) :
    testSplit (consec14 m f) (m + 7)
      = ((List.range 14).filter (fun i => decide (7 < i))).map
          (fun (i : Nat) => (⟨m + i, f i⟩ : SeriesPoint)) := by
  unfold testSplit consec14
  rw [List.filter_map]
  congr 1
  refine List.filter_congr ?_
  intro i _
  simp only [Function.comp]
  rw [decide_eq_decide]
  omega

lemma seriesMax_consec14 (m : Int) (f : Nat → ℚ) : seriesMax (consec14 m f) = m + 13 := by
  simp [consec14, seriesMax, List.range_succ]

/-- Claim C5: on a series of exactly 14 consecutive month-start points,
the split at cutoff = max − 6 months yields exactly 8 training and 6
holdout points, and the 6 horizon dates generated at month-start frequency
are the consecutive month-starts immediately following the last training
date (m+7): m+8 through m+13. -/
theorem end_to_end_14_month_scenario (m : Int) (f : Nat → ℚ) :
    (trainSplit (consec14 m f) (trainCutoff (consec14 m f) 6)).length = 8
    ∧ (testSplit (consec14 m f) (trainCutoff (consec14 m f) 6)).length = 6
    ∧ intListMax ((trainSplit (consec14 m f) (trainCutoff (consec14 m f) 6)).map
        (fun p => p.ds)) = m + 7
    ∧ futureOnly ((trainSplit (consec14 m f) (trainCutoff (consec14 m f) 6)).map
        (fun p => p.ds)) 6
        = [m + 8, m + 9, m + 10, m + 11, m + 12, m + 13] := by
  have hcut : trainCutoff (consec14 m f) 6 = m + 7 := by
    unfold trainCutoff
    rw [seriesMax_consec14]
    omega
  rw [hcut, trainSplit_consec14, testSplit_consec14]
  have hr1 : (List.range 14).filter (fun i => decide (i ≤ 7)) = [0, 1, 2, 3, 4, 5, 6, 7] := rfl
  have hr2 : (List.range 14).filter (fun i => decide (7 < i)) = [8, 9, 10, 11, 12, 13] := rfl
  rw [hr1, hr2]
  have hds : ([0, 1, 2, 3, 4, 5, 6, 7].map
        (fun (i : Nat) => (⟨m + i, f i⟩ : SeriesPoint))).map (fun p => p.ds)
      = [m + 0, m + 1, m + 2, m + 3, m + 4, m + 5, m + 6, m + 7] := by
    simp
  rw [hds]
  have hmax : intListMax [m + 0, m + 1, m + 2, m + 3, m + 4, m + 5, m + 6, m + 7] = m + 7 := by
    simp [intListMax]
  refine ⟨by simp, by simp, hmax, ?_⟩
  rw [futureOnly_eq_horizon, hmax]
  simp [List.range_succ]
  omega

/-! ### Claim C6: empty filter match — empty series, but no distinct error -/

/-- Claim C6 counterexample: for a concrete filter matching zero
transactions, the Aggregator yields the empty series (that half of the
claim holds), but the downstream fit call fails with the external
library's own error, which is not the distinct FilterEmptyError the claim
asserts. -/
theorem filter_empty_no_distinct_error_counterexample :
    monthlySpend [⟨⟨0, 5⟩, "Delhi", "Food", 3⟩] "Bengaluru, India" "Food" = []
    ∧ downstream (monthlySpend [⟨⟨0, 5⟩, "Delhi", "Food", 3⟩] "Bengaluru, India" "Food")
        = .error .libraryFitFailure
    ∧ (Except.error FitError.libraryFitFailure : Except FitError Unit)
        ≠ .error .filterEmpty :=
  ⟨rfl, rfl, fun h => absurd (Except.error.inj h) (by decide)⟩

/-- Claim C6 (amended): a filter matching zero transactions yields an
empty monthly series (not an error); the notebook then calls the external
fit on the resulting empty training frame with no guard, so the surfaced
failure is the external library's own, and no input ever produces a
distinct FilterEmptyError. -/
theorem filter_empty_yields_empty_series (txs : List Transaction) (city category : String)
    (h : txs.filter (matchesFilter city category) = []) :
    monthlySpend txs city category = []
    ∧ downstream (monthlySpend txs city category) = .error .libraryFitFailure
    ∧ ∀ s : List SeriesPoint, downstream s ≠ .error .filterEmpty := by
  have he : monthlySpend txs city category = [] := by
    unfold monthlySpend
    rw [h]
    rfl
  refine ⟨he, ?_, ?_⟩
  · rw [he]
    rfl
  · intro s
    unfold downstream prophetFit
    split
    · intro hc
      exact absurd (Except.error.inj hc) (by decide)
    · intro hc
      exact Except.noConfusion hc

/-- Witness for C6 (amended) at a concrete non-matching transaction list:
the zero-match hypothesis is discharged by evaluation. -/
theorem filter_empty_yields_empty_series_witness :
    monthlySpend [⟨⟨0, 5⟩, "Delhi", "Food", 3⟩] "Mumbai" "Food" = [] :=
  (filter_empty_yields_empty_series [⟨⟨0, 5⟩, "Delhi", "Food", 3⟩] "Mumbai" "Food"
    (by decide)).1

/-! ### Claim C7: empty evaluation join — fails, but no distinct error -/

/-- Claim C7 counterexample: for a concrete holdout and forecast with no
overlapping date, the joined set is empty and the Evaluator's outcome is
the external metric library's failure, not the distinct
EvaluationOverlapError the claim asserts. -/
theorem empty_overlap_no_distinct_error_counterexample :
    dropna (leftMerge [⟨0, 1⟩] [(5, 2)]) = []
    ∧ evalStep [⟨0, 1⟩] [(5, 2)] = .error .libraryMetricFailure
    ∧ (Except.error EvalError.libraryMetricFailure : Except EvalError ℚ)
        ≠ .error .evaluationOverlap :=
  ⟨rfl, rfl, fun h => absurd (Except.error.inj h) (by decide)⟩

/-- Claim C7 (amended): if the evaluation join over holdout and forecast
dates is empty the metric call fails (it does not silently return zero or
NaN), but the failure is the external metric library's own; the Evaluator
never surfaces the distinct EvaluationOverlapError. -/
theorem empty_overlap_fails_via_library (holdout : List SeriesPoint)
    (forecast : List (Int × ℚ)) (h : dropna (leftMerge holdout forecast) = []) :
    evalStep holdout forecast = .error .libraryMetricFailure
    ∧ ∀ (h' : List SeriesPoint) (f' : List (Int × ℚ)),
        evalStep h' f' ≠ .error .evaluationOverlap := by
  constructor
  · unfold evalStep
    rw [h]
    rfl
  · intro h' f'
    simp only [evalStep, mean_absolute_error]
    split
    · intro hc
      exact absurd (Except.error.inj hc) (by decide)
    · intro hc
      exact Except.noConfusion hc

/-- Witness for C7 (amended) at a concrete holdout and an empty forecast:
the empty-join hypothesis is discharged by evaluation. -/
theorem empty_overlap_fails_via_library_witness :
    evalStep [⟨0, 1⟩] [] = .error .libraryMetricFailure :=
  (empty_overlap_fails_via_library [⟨0, 1⟩] [] rfl).1

/-! ### Claim C9: a plot-save failure is not isolated from the evaluation -/

/-- Claim C9 counterexample: with a one-point holdout matched by the
forecast, the evaluation produces an MAE when the forecast-plot save
succeeds, but a failing save makes the whole tail abort with a render
error: the MAE result is not produced, so a savefig failure does prevent
the evaluation result. -/
theorem render_failure_not_isolated_counterexample :
    (∃ v, notebookTail (.ok ()) [⟨0, 1⟩] [(0, 1)] = .ok v)
    ∧ notebookTail (.error ()) [⟨0, 1⟩] [(0, 1)] = .error .render :=
  ⟨⟨_, rfl⟩, rfl⟩

/-- Claim C9 (amended): the notebook saves the forecast plot before the
evaluation cell and has no exception handling, so a failure while saving
the forecast plot aborts the run with a render error and the MAE result is
never produced — render errors are not isolated from the evaluation. -/
theorem render_failure_aborts_tail (e : Unit) (holdout : List SeriesPoint)
    (forecast : List (Int × ℚ)) :
    notebookTail (.error e) holdout forecast = .error .render :=
  rfl
